import Mathlib

/-!
Shallow embedding of the essex card-game core (cards.py and game.py).

Python conventions mapped to Lean:
* a Python exception is the `Except.error` case; when an operation can fail
  after mutating, the error carries the state as it stands when the
  exception propagates (Python does not roll back);
* `random.randint(0, i)` is modelled by an arbitrary choice function
  `r : Nat → Nat`; the RNG contract is the hypothesis `r i ≤ i`;
* CPython iterates the set `ALL_SUITS = {1, 2, 3, 4}` of small ints in
  ascending numeric order (the repository's own tests observe and rely on
  this), so the set is embedded as the list `[1, 2, 3, 4]`.
-/

/-- Suit "enum that also functions as point values" (cards.py). -/
def Suit.SPADE : Nat := 1

/-- Suit value for diamonds. -/
def Suit.DIAMOND : Nat := 2

/-- Suit value for hearts. -/
def Suit.HEART : Nat := 3

/-- Suit value for clubs. -/
def Suit.CLUB : Nat := 4

/-- `Suit.ALL_SUITS`, in CPython set-iteration order for these small ints. -/
def Suit.ALL_SUITS : List Nat := [Suit.SPADE, Suit.DIAMOND, Suit.HEART, Suit.CLUB]

/-- A card: a suit and a value (rank), as stored by `Card.__init__`. -/
structure Card where
  suit : Nat
  value : Nat
  deriving DecidableEq, Repr

/-- `Card.__init__` with its sanity checks: the asserts demand
`suit in Suit.ALL_SUITS`, an integer value, and `2 <= value <= 14`; a failed
assert (an exception) is the `none` case.  The raw value is an arbitrary
integer, hence `Int`. -/
def Card.make (suit : Nat) (value : Int) : Option Card :=
  if suit ∈ Suit.ALL_SUITS ∧ 2 ≤ value ∧ value ≤ 14 then
    some ⟨suit, value.toNat⟩
  else
    none

/-- `Card.points`: the calculated value `self.suit * self.value`. -/
def Card.points (c : Card) : Nat := c.suit * c.value

/-- `Card.__lt__`: first by suit value, then by card value. -/
def Card.lt (a b : Card) : Bool :=
  if a.suit = b.suit then a.value < b.value else a.suit < b.suit

/-- `Card.__le__`, as `functools.total_ordering` derives it from
`__lt__` and `__eq__`. -/
def Card.le (a b : Card) : Bool := Card.lt a b || a == b

/-- A deck: the draw pile `cards` and the discard pile `pile`. -/
structure Deck where
  cards : List Card
  pile : List Card
  deriving DecidableEq, Repr

/-- `Deck.__init__`: `[Card(a, b) for a in Suit.ALL_SUITS for b in range(2, 15)]`
and an empty discard pile. -/
def Deck.new : Deck :=
  ⟨Suit.ALL_SUITS.flatMap (fun a => (List.range' 2 13).map (fun b => ⟨a, b⟩)), []⟩

/-- `Deck.combine_deck_and_pile`: extend `cards` with `pile`, empty `pile`. -/
def Deck.combine_deck_and_pile (d : Deck) : Deck :=
  ⟨d.cards ++ d.pile, []⟩

/-- `list.pop(k)` for a non-negative index: the removed element and the
remaining list, or `none` (IndexError) when `k` is out of range. -/
def popIdx : List Card → Nat → Option (Card × List Card)
  | [], _ => none
  | c :: cs, 0 => some (c, cs)
  | c :: cs, Nat.succ k => (popIdx cs k).map (fun p => (p.1, c :: p.2))

/-- The loop of `Deck.shuffle`: `for i in range(51, -1, -1):
new_cards.append(self.cards.pop(random.randint(0, i)))`.  The counter
argument `n + 1` corresponds to loop variable `i = n`.  On an IndexError the
error carries the working list as `self.cards` stands at that moment (the
local `new_cards` is lost). -/
def Deck.shuffleLoop (r : Nat → Nat) : Nat → List Card → List Card → Except (List Card) (List Card)
  | 0, _, acc => .ok acc
  | Nat.succ n, cs, acc =>
    match popIdx cs (r n) with
    | none => .error cs
    | some (c, rest) => Deck.shuffleLoop r n rest (acc ++ [c])

/-- `Deck.shuffle`: recombine the pile, then run the 52-step loop and replace
`cards` by the accumulated `new_cards`. -/
def Deck.shuffle (r : Nat → Nat) (d : Deck) : Except Deck Deck :=
  let d1 := d.combine_deck_and_pile
  match Deck.shuffleLoop r 52 d1.cards [] with
  | .ok nc => .ok ⟨nc, d1.pile⟩
  | .error left => .error ⟨left, d1.pile⟩

/-- The shuffle algorithm as the specification words it: the card picked at
loop counter `i` "becomes position i of the result", so the pick at `i = 0`
is first and the pick at `i = 51` is last. -/
def Deck.shuffleSpecLoop (r : Nat → Nat) : Nat → List Card → Except (List Card) (List Card)
  | 0, _ => .ok []
  | Nat.succ n, cs =>
    match popIdx cs (r n) with
    | none => .error cs
    | some (c, rest) => (Deck.shuffleSpecLoop r n rest).map (fun out => out ++ [c])

/-- `shuffle` with the spec's placement rule (pick at counter `i` lands at
position `i`), for comparison with `Deck.shuffle`. -/
def Deck.shuffleSpec (r : Nat → Nat) (d : Deck) : Except Deck Deck :=
  let d1 := d.combine_deck_and_pile
  match Deck.shuffleSpecLoop r 52 d1.cards with
  | .ok nc => .ok ⟨nc, d1.pile⟩
  | .error left => .error ⟨left, d1.pile⟩

/-- `Deck.draw_one`: `self.cards.pop(0)` then `self.pile.append(...)`.
`pop(0)` on an empty list raises before anything is mutated, so the error
carries the deck unchanged. -/
def Deck.draw_one (d : Deck) : Except Deck (Card × Deck) :=
  match d.cards with
  | [] => .error d
  | c :: rest => .ok (c, ⟨rest, d.pile ++ [c]⟩)

/-- `Deck.sort`: recombine the pile, then `self.cards = sorted(self.cards)`
using the Card ordering. -/
def Deck.sort (d : Deck) : Deck :=
  let d1 := d.combine_deck_and_pile
  ⟨d1.cards.mergeSort Card.le, d1.pile⟩

/-- The two Player instances owned by a Game, distinguished by identity. -/
inductive PlayerId where
  | p1
  | p2
  deriving DecidableEq, Repr

/-- The mutable core state of a Game: the shared Deck and the two Players'
hands (each Player holds a reference to the one shared deck). -/
structure GameState where
  deck : Deck
  hand1 : List Card
  hand2 : List Card
  deriving DecidableEq, Repr

/-- The hand of one player. -/
def GameState.hand (g : GameState) : PlayerId → List Card
  | .p1 => g.hand1
  | .p2 => g.hand2

/-- Replace the hand of one player. -/
def GameState.setHand (g : GameState) : PlayerId → List Card → GameState
  | .p1, h => ⟨g.deck, h, g.hand2⟩
  | .p2, h => ⟨g.deck, g.hand1, h⟩

/-- `Player.hand_value`: `sum(card.points for card in hand)`. -/
def handValue (hand : List Card) : Nat := (hand.map Card.points).sum

/-- `Game.__init__`: a fresh Deck and two Players with empty hands sharing it. -/
def Game.new : GameState := ⟨Deck.new, [], []⟩

/-- `Player.draw_one`: delegate to the shared deck's `draw_one`, then append
the card to this player's hand.  If the deck raises, the hand is untouched
and the exception propagates with the deck as `Deck.draw_one` left it. -/
def Player.draw_one (p : PlayerId) (g : GameState) : Except GameState (Card × GameState) :=
  match g.deck.draw_one with
  | .error dk => .error ⟨dk, g.hand1, g.hand2⟩
  | .ok (c, dk) => .ok (c, (GameState.setHand ⟨dk, g.hand1, g.hand2⟩ p (g.hand p ++ [c])))

/-- `Player.reset`: clear this player's hand. -/
def Player.reset (p : PlayerId) (g : GameState) : GameState :=
  g.setHand p []

/-- The Python value a core function hands back to its caller. -/
inductive PyRet where
  | pynone
  | cards (cs : List Card)
  | pair (a b : Nat)
  deriving DecidableEq, Repr

/-- One iteration of the `Game.draw_cards` loop: player 1 draws, then
player 2 draws.  An exception in either draw propagates, keeping any
mutation already made. -/
def Game.drawRound (g : GameState) : Except GameState GameState :=
  match Player.draw_one .p1 g with
  | .error s => .error s
  | .ok (_, g1) =>
    match Player.draw_one .p2 g1 with
    | .error s => .error s
    | .ok (_, g2) => .ok g2

/-- The `for _ in range(3)` loop of `Game.draw_cards`. -/
def Game.drawLoop : Nat → GameState → Except GameState GameState
  | 0, g => .ok g
  | Nat.succ n, g =>
    match Game.drawRound g with
    | .error s => .error s
    | .ok g1 => Game.drawLoop n g1

/-- `Game.draw_cards`: three alternating rounds of draws.  The function body
has no `return` statement, so the value handed back on success is Python's
`None` (`PyRet.pynone`); the console prints belong to the excluded
presentation layer. -/
def Game.draw_cards (g : GameState) : Except GameState (PyRet × GameState) :=
  match Game.drawLoop 3 g with
  | .error s => .error s
  | .ok g1 => .ok (PyRet.pynone, g1)

/-- `Game.compare_hands`: compute both hand values and return the winner,
`none` on a tie.  Pure apart from presentation-layer prints; the point
totals are not part of the return value. -/
def Game.compare_hands (g : GameState) : Option PlayerId :=
  let points1 := handValue g.hand1
  let points2 := handValue g.hand2
  if points1 ≠ points2 then
    some (if points1 > points2 then .p1 else .p2)
  else
    none

/-- `Game.play`: reset both players, shuffle the shared deck, draw three
cards each, compare hands, and return the winning player (or `none`). -/
def Game.play (r : Nat → Nat) (g : GameState) : Except GameState (Option PlayerId × GameState) :=
  let g1 := Player.reset .p2 (Player.reset .p1 g)
  match g1.deck.shuffle r with
  | .error dk => .error ⟨dk, g1.hand1, g1.hand2⟩
  | .ok dk =>
    match Game.draw_cards ⟨dk, g1.hand1, g1.hand2⟩ with
    | .error s => .error s
    | .ok (_, g2) => .ok (Game.compare_hands g2, g2)

/-! ### Order properties of `Card.le` -/

/-- `Card.le` spelt out arithmetically. -/
theorem Card.le_iff (a b : Card) :
    Card.le a b = true ↔ a.suit < b.suit ∨ (a.suit = b.suit ∧ a.value ≤ b.value) := by
  cases a with
  | mk sa va =>
    cases b with
    | mk sb vb =>
      simp only [Card.le, Card.lt, Bool.or_eq_true, decide_eq_true_eq, beq_iff_eq,
        Card.mk.injEq]
      by_cases h : sa = sb <;> simp [h] <;> omega

/-- `Card.lt` spelt out arithmetically. -/
theorem Card.lt_iff (a b : Card) :
    Card.lt a b = true ↔ a.suit < b.suit ∨ (a.suit = b.suit ∧ a.value < b.value) := by
  cases a with
  | mk sa va =>
    cases b with
    | mk sb vb =>
      simp only [Card.lt, decide_eq_true_eq]
      by_cases h : sa = sb <;> simp [h]

/-- The card ordering, as a Prop-valued relation. -/
def CardLeP (a b : Card) : Prop := Card.le a b = true

/-- `Card.le` is transitive. -/
theorem Card.le_trans (a b c : Card) (hab : Card.le a b = true) (hbc : Card.le b c = true) :
    Card.le a c = true := by
  rw [Card.le_iff] at hab hbc ⊢
  omega

/-- `Card.le` is total. -/
theorem Card.le_total (a b : Card) : (Card.le a b || Card.le b a) = true := by
  rw [Bool.or_eq_true, Card.le_iff, Card.le_iff]
  omega

/-- `Card.le` is antisymmetric. -/
theorem Card.le_antisymm (a b : Card) (hab : Card.le a b = true) (hba : Card.le b a = true) :
    a = b := by
  rw [Card.le_iff] at hab hba
  cases a with
  | mk sa va =>
    cases b with
    | mk sb vb =>
      simp only [Card.mk.injEq]
      simp only at hab hba
      omega

instance : IsAntisymm Card CardLeP := ⟨fun a b => Card.le_antisymm a b⟩

/-- Any two sorted lists of cards that are permutations of one another are
equal: sorting a multiset has a unique result. -/
theorem sorted_perm_unique {l1 l2 : List Card} (p : l1.Perm l2)
    (s1 : l1.Pairwise CardLeP) (s2 : l2.Pairwise CardLeP) : l1 = l2 :=
  List.eq_of_perm_of_sorted p s1 s2

/-- `mergeSort` with `Card.le` really sorts: the output is `Card.le`-sorted
and a permutation of the input. -/
theorem mergeSort_card_sorted (l : List Card) :
    (l.mergeSort Card.le).Pairwise CardLeP ∧ (l.mergeSort Card.le).Perm l := by
  constructor
  · have h := @List.sorted_mergeSort Card Card.le
      (fun a b c hab hbc => Card.le_trans a b c hab hbc)
      (fun a b => Card.le_total a b) l
    exact h
  · exact List.mergeSort_perm l Card.le

/-! ### `popIdx` and the shuffle loop -/

/-- Popping index `k` removes exactly one occurrence: the input list is a
permutation of the popped card consed onto the remainder. -/
theorem popIdx_perm : ∀ (l : List Card) (k : Nat) (c : Card) (l' : List Card),
    popIdx l k = some (c, l') → l.Perm (c :: l')
  | [], k, c, l', h => by simp [popIdx] at h
  | a :: as, 0, c, l', h => by
    simp only [popIdx, Option.some.injEq, Prod.mk.injEq] at h
    obtain ⟨rfl, rfl⟩ := h
    exact List.Perm.refl _
  | a :: as, Nat.succ k, c, l', h => by
    cases hp : popIdx as k with
    | none => simp [popIdx, hp] at h
    | some p =>
      obtain ⟨c0, rest⟩ := p
      have hrec := popIdx_perm as k c0 rest hp
      simp only [popIdx, hp, Option.map_some, Option.some.injEq, Prod.mk.injEq] at h
      obtain ⟨rfl, rfl⟩ := h
      exact (hrec.cons a).trans (List.Perm.swap c0 a rest)

/-- `popIdx` succeeds exactly on indices below the length. -/
theorem popIdx_isSome : ∀ (l : List Card) (k : Nat), k < l.length → (popIdx l k).isSome = true
  | [], k, h => by simp at h
  | a :: as, 0, _ => by simp [popIdx]
  | a :: as, Nat.succ k, h => by
    have hk : k < as.length := by simpa using h
    have := popIdx_isSome as k hk
    cases hp : popIdx as k with
    | none => rw [hp] at this; simp at this
    | some p => simp [popIdx, hp]

/-- Under the RNG contract `r i ≤ i`, the shuffle loop started on a list of
length `n` succeeds, and its output is a permutation of the accumulator
followed by the working list. -/
theorem shuffleLoop_ok (r : Nat → Nat) (hr : ∀ i, r i ≤ i) :
    ∀ (n : Nat) (cs acc : List Card), cs.length = n →
      ∃ out, Deck.shuffleLoop r n cs acc = .ok out ∧ out.Perm (acc ++ cs)
  | 0, cs, acc, h => by
    have : cs = [] := List.length_eq_zero.mp h
    subst this
    exact ⟨acc, rfl, by simp⟩
  | Nat.succ n, cs, acc, h => by
    have hk : r n < cs.length := lt_of_le_of_lt (hr n) (by omega)
    have hsome := popIdx_isSome cs (r n) hk
    cases hp : popIdx cs (r n) with
    | none => rw [hp] at hsome; simp at hsome
    | some p =>
      obtain ⟨c, rest⟩ := p
      have hperm := popIdx_perm cs (r n) c rest hp
      have hlen : rest.length = n := by
        have := hperm.length_eq
        simp only [List.length_cons] at this
        omega
      obtain ⟨out, hout, houtp⟩ := shuffleLoop_ok r hr n rest (acc ++ [c]) hlen
      refine ⟨out, ?_, ?_⟩
      · simp only [Deck.shuffleLoop, hp]
        exact hout
      · refine houtp.trans ?_
        have h1 : (acc ++ [c]) ++ rest = acc ++ (c :: rest) := by simp
        rw [h1]
        exact List.Perm.append_left acc hperm.symm

/-- The source loop and the specification's placement rule produce reversed
lists of picks: the source appends the pick made at counter `i` (so it lands
at position `51 - i`), while the spec places it at position `i`. -/
theorem shuffleLoop_eq_spec_reverse (r : Nat → Nat) :
    ∀ (n : Nat) (cs acc : List Card),
      Deck.shuffleLoop r n cs acc =
        (Deck.shuffleSpecLoop r n cs).map (fun out => acc ++ out.reverse)
  | 0, cs, acc => by simp [Deck.shuffleLoop, Deck.shuffleSpecLoop, Except.map]
  | Nat.succ n, cs, acc => by
    cases hp : popIdx cs (r n) with
    | none => simp [Deck.shuffleLoop, Deck.shuffleSpecLoop, hp, Except.map]
    | some p =>
      obtain ⟨c, rest⟩ := p
      simp only [Deck.shuffleLoop, Deck.shuffleSpecLoop, hp]
      rw [shuffleLoop_eq_spec_reverse r n rest (acc ++ [c])]
      cases hs : Deck.shuffleSpecLoop r n rest with
      | error e => simp [Except.map]
      | ok out => simp [Except.map]

instance : DecidableRel CardLeP :=
  fun a b => inferInstanceAs (Decidable (Card.le a b = true))

/-- Characterization of a successful `Deck.shuffle` on any deck whose two
piles together hold 52 cards: it succeeds, the new draw pile is a
permutation of the old contents of both piles, and the discard pile is
empty. -/
theorem shuffle_ok (r : Nat → Nat) (hr : ∀ i, r i ≤ i) (d : Deck)
    (hl : d.cards.length + d.pile.length = 52) :
    ∃ d', Deck.shuffle r d = .ok d' ∧ d'.cards.Perm (d.cards ++ d.pile) ∧ d'.pile = [] := by
  obtain ⟨out, hout, hperm⟩ :=
    shuffleLoop_ok r hr 52 (d.cards ++ d.pile) [] (by simp [hl])
  refine ⟨⟨out, []⟩, ?_, by simpa using hperm, rfl⟩
  simp only [Deck.shuffle, Deck.combine_deck_and_pile, hout]

/-- Sorting any rearrangement of the full deck restores the construction
order of `Deck.new`. -/
theorem mergeSort_canonical (l : List Card) (hp : l.Perm Deck.new.cards) :
    l.mergeSort Card.le = Deck.new.cards := by
  have hsorted : Deck.new.cards.Pairwise CardLeP := by decide
  exact sorted_perm_unique ((mergeSort_card_sorted l).2.trans hp)
    (mergeSort_card_sorted l).1 hsorted

/-- The Deck invariant: the two piles together hold 52 cards, they form
exactly the canonical multiset of 52 (suit, rank) combinations (the cards
of a fresh deck), and no card is duplicated. -/
def DeckInv (d : Deck) : Prop :=
  d.cards.length + d.pile.length = 52 ∧
  (d.cards ++ d.pile).Perm Deck.new.cards ∧
  (d.cards ++ d.pile).Nodup

/-- Deck states reachable through the public Deck operations: construction,
recombining, shuffling (with in-range random picks), drawing from a
non-empty draw pile, and sorting. -/
inductive DeckReachable : Deck → Prop where
  | new : DeckReachable Deck.new
  | combine {d : Deck} : DeckReachable d → DeckReachable d.combine_deck_and_pile
  | shuffle {d d' : Deck} (r : Nat → Nat) : DeckReachable d → (∀ i, r i ≤ i) →
      Deck.shuffle r d = .ok d' → DeckReachable d'
  | draw {d d' : Deck} {c : Card} : DeckReachable d →
      Deck.draw_one d = .ok (c, d') → DeckReachable d'
  | sort {d : Deck} : DeckReachable d → DeckReachable d.sort

/-- Every reachable Deck satisfies the Deck invariant (shared helper). -/
theorem deckInv_of_reachable (d : Deck) (h : DeckReachable d) : DeckInv d := by
  induction h with
  | new =>
    refine ⟨by decide, ?_, by decide⟩
    show (Deck.new.cards ++ []).Perm Deck.new.cards
    simp
  | @combine d0 h ih =>
    obtain ⟨hlen, hperm, hnd⟩ := ih
    refine ⟨?_, ?_, ?_⟩
    · show (d0.cards ++ d0.pile).length + ([] : List Card).length = 52
      simp only [List.length_append, List.length_nil]
      omega
    · show ((d0.cards ++ d0.pile) ++ []).Perm Deck.new.cards
      simpa using hperm
    · show ((d0.cards ++ d0.pile) ++ []).Nodup
      simpa using hnd
  | @shuffle d0 d' r h hr hok ih =>
    obtain ⟨hlen, hperm, hnd⟩ := ih
    obtain ⟨d2, hok2, hp, hpile⟩ := shuffle_ok r hr d0 hlen
    rw [hok] at hok2
    cases hok2
    have hcards : d'.cards.Perm Deck.new.cards := hp.trans hperm
    refine ⟨?_, ?_, ?_⟩
    · rw [hpile]
      have h1 := hcards.length_eq
      have h2 : Deck.new.cards.length = 52 := by decide
      simp only [List.length_nil]
      omega
    · rw [hpile]
      simpa using hcards
    · rw [hpile]
      simp only [List.append_nil]
      exact hcards.nodup_iff.mpr (by decide)
  | @draw d0 d' c h hok ih =>
    obtain ⟨hlen, hperm, hnd⟩ := ih
    cases hc : d0.cards with
    | nil => simp [Deck.draw_one, hc] at hok
    | cons a rest =>
      simp only [Deck.draw_one, hc, Except.ok.injEq, Prod.mk.injEq] at hok
      obtain ⟨rfl, rfl⟩ := hok
      have hstep : (rest ++ (d0.pile ++ [a])).Perm (d0.cards ++ d0.pile) := by
        rw [hc]
        have h1 : rest ++ (d0.pile ++ [a]) = (rest ++ d0.pile) ++ [a] := by simp
        rw [h1]
        exact (List.perm_append_singleton a (rest ++ d0.pile)).trans (List.Perm.refl _)
      refine ⟨?_, ?_, ?_⟩
      · have := hstep.length_eq
        simp only [List.length_append] at this ⊢
        omega
      · exact hstep.trans hperm
      · exact hstep.nodup_iff.mpr hnd
  | @sort d0 h ih =>
    obtain ⟨hlen, hperm, hnd⟩ := ih
    have hms := List.mergeSort_perm (d0.cards ++ d0.pile) Card.le
    refine ⟨?_, ?_, ?_⟩
    · show ((d0.cards ++ d0.pile).mergeSort Card.le).length + ([] : List Card).length = 52
      have := hms.length_eq
      simp only [List.length_append, List.length_nil] at this ⊢
      omega
    · show (((d0.cards ++ d0.pile).mergeSort Card.le) ++ []).Perm Deck.new.cards
      simpa using hms.trans hperm
    · show (((d0.cards ++ d0.pile).mergeSort Card.le) ++ []).Nodup
      simpa using hms.nodup_iff.mpr hnd

/-- C1: after every sequence of Deck operations (construction, recombine,
shuffle with in-range random picks, draw on a non-empty draw pile, sort),
the Deck invariant holds: `|cards| + |pile| = 52` and the two piles together
are exactly the 52 canonical (suit, rank) combinations — no duplicates, no
omissions. -/
theorem claim_deck_invariant (d : Deck) (h : DeckReachable d) : DeckInv d :=
  deckInv_of_reachable d h

/-- Witness for C1 at the freshly constructed deck. -/
theorem claim_deck_invariant_witness : DeckInv Deck.new :=
  claim_deck_invariant Deck.new DeckReachable.new

instance {s a : Type} [DecidableEq s] [DecidableEq a] : DecidableEq (Except s a) :=
  fun x y =>
    match x, y with
    | .error e, .error f => decidable_of_iff (e = f) (by simp)
    | .ok v, .ok w => decidable_of_iff (v = w) (by simp)
    | .error _, .ok _ => isFalse (by simp)
    | .ok _, .error _ => isFalse (by simp)

/-- The always-pick-index-0 choice sequence (a degenerate but in-range RNG). -/
def rzero : Nat → Nat := fun _ => 0

/-- C2 counterexample: with the in-range random choices that always pick
index 0, the source `shuffle` leaves a fresh deck in construction order
(each pick is appended, landing at position `51 - i`), while the claim's
algorithm ("the pick at counter `i` becomes position `i` of the result")
would produce the reversed order.  The two results differ, so the claim's
placement rule is not what the code does. -/
theorem claim_shuffle_position_counterexample :
    Deck.shuffle rzero Deck.new = .ok ⟨Deck.new.cards, []⟩ ∧
    Deck.shuffleSpec rzero Deck.new = .ok ⟨Deck.new.cards.reverse, []⟩ ∧
    Deck.new.cards ≠ Deck.new.cards.reverse := by decide

/-- C2 (amended): `shuffle` first recombines, then for `i` from 51 down
to 0 removes the card at a random in-range index among the unplaced cards,
appending it to the result (so the pick at counter `i` becomes position
`51 - i`, the reverse of the spec's placement); on any deck holding 52
cards in total it succeeds, the new draw pile is a permutation of the same
52 cards (none created, none dropped), and the discard pile ends empty. -/
theorem claim_shuffle_permutation (d : Deck) (r : Nat → Nat) (hr : ∀ i, r i ≤ i)
    (hl : d.cards.length + d.pile.length = 52) :
    ∃ d', Deck.shuffle r d = .ok d' ∧
      d'.cards.Perm (d.cards ++ d.pile) ∧ d'.pile = [] ∧
      Deck.shuffleSpec r d = .ok ⟨d'.cards.reverse, []⟩ := by
  obtain ⟨d', hok, hp, hpile⟩ := shuffle_ok r hr d hl
  refine ⟨d', hok, hp, hpile, ?_⟩
  have hrel := shuffleLoop_eq_spec_reverse r 52 (d.cards ++ d.pile) []
  cases hsl : Deck.shuffleLoop r 52 (d.cards ++ d.pile) [] with
  | error e =>
    have : Deck.shuffle r d = .error ⟨e, []⟩ := by
      simp only [Deck.shuffle, Deck.combine_deck_and_pile, hsl]
    rw [hok] at this
    exact absurd this (by simp)
  | ok nc =>
    have hd' : Deck.shuffle r d = .ok ⟨nc, []⟩ := by
      simp only [Deck.shuffle, Deck.combine_deck_and_pile, hsl]
    rw [hok] at hd'
    have hnc : d' = ⟨nc, []⟩ := by
      cases hd'
      rfl
    rw [hsl] at hrel
    cases hspec : Deck.shuffleSpecLoop r 52 (d.cards ++ d.pile) with
    | error e =>
      rw [hspec] at hrel
      simp [Except.map] at hrel
    | ok o =>
      rw [hspec] at hrel
      simp only [Except.map, Except.ok.injEq, List.nil_append] at hrel
      have ho : o = nc.reverse := by
        rw [hrel]
        simp
      show Deck.shuffleSpec r d = .ok ⟨d'.cards.reverse, []⟩
      simp only [Deck.shuffleSpec, Deck.combine_deck_and_pile, hspec, ho, hnc]

/-- Witness for C2 (amended) at a fresh deck with the all-zero choices. -/
theorem claim_shuffle_permutation_witness :
    (∀ i, rzero i ≤ i) ∧ Deck.new.cards.length + Deck.new.pile.length = 52 ∧
    (∃ d', Deck.shuffle rzero Deck.new = .ok d' ∧
      d'.cards.Perm (Deck.new.cards ++ Deck.new.pile) ∧ d'.pile = [] ∧
      Deck.shuffleSpec rzero Deck.new = .ok ⟨d'.cards.reverse, []⟩) :=
  ⟨fun i => Nat.zero_le i, by decide,
    claim_shuffle_permutation Deck.new rzero (fun i => Nat.zero_le i) (by decide)⟩

/-- C3: from every reachable Deck state and for every sequence of in-range
random choices, `shuffle()` succeeds and `sort()` right after it leaves the
draw pile equal to the canonical 52-card sequence (ascending in the Card
order, which is the construction order of a fresh deck) with an empty
discard pile. -/
theorem claim_shuffle_then_sort (d : Deck) (hd : DeckReachable d) (r : Nat → Nat)
    (hr : ∀ i, r i ≤ i) :
    ∃ d', Deck.shuffle r d = .ok d' ∧
      d'.sort.cards = Deck.new.cards ∧ d'.sort.pile = [] ∧
      Deck.new.cards.Pairwise (fun a b => Card.lt a b = true) := by
  obtain ⟨hlen, hperm, hnd⟩ := deckInv_of_reachable d hd
  obtain ⟨d', hok, hp, hpile⟩ := shuffle_ok r hr d hlen
  refine ⟨d', hok, ?_, rfl, by decide⟩
  show (d'.cards ++ d'.pile).mergeSort Card.le = Deck.new.cards
  apply mergeSort_canonical
  rw [hpile]
  simp only [List.append_nil]
  exact hp.trans (by simpa using hperm)

/-- Witness for C3 at a fresh deck with the all-zero choices. -/
theorem claim_shuffle_then_sort_witness :
    (∀ i, rzero i ≤ i) ∧
    (∃ d', Deck.shuffle rzero Deck.new = .ok d' ∧
      d'.sort.cards = Deck.new.cards ∧ d'.sort.pile = [] ∧
      Deck.new.cards.Pairwise (fun a b => Card.lt a b = true)) :=
  ⟨fun i => Nat.zero_le i,
    claim_shuffle_then_sort Deck.new DeckReachable.new rzero (fun i => Nat.zero_le i)⟩

/-- C4: a freshly constructed Deck has 52 cards in the draw pile and none in
the discard pile; the draw pile holds every canonical (suit, rank)
combination, nothing else, with no duplicates; and it is sorted strictly
ascending in the Card order (suit-major, rank-minor). -/
theorem claim_fresh_deck :
    Deck.new.cards.length = 52 ∧
    Deck.new.pile = [] ∧
    Deck.new.cards.Nodup ∧
    (∀ s ∈ Suit.ALL_SUITS, ∀ v ∈ List.range' 2 13, (⟨s, v⟩ : Card) ∈ Deck.new.cards) ∧
    (∀ c ∈ Deck.new.cards, c.suit ∈ Suit.ALL_SUITS ∧ 2 ≤ c.value ∧ c.value ≤ 14) ∧
    Deck.new.cards.Pairwise (fun a b => Card.lt a b = true) := by
  decide

/-- C5: `draw_one` on a deck whose draw pile is empty fails (the modelled
`EmptyDeck` error) and the error state is the deck itself — both piles are
exactly as they were before the call. -/
theorem claim_draw_one_empty (d : Deck) (h : d.cards = []) :
    Deck.draw_one d = .error d := by
  cases d with
  | mk cs p =>
    simp only at h
    subst h
    rfl

/-- Witness for C5 at the deck with an empty draw pile and a one-card
discard pile. -/
theorem claim_draw_one_empty_witness :
    (⟨[], [⟨1, 2⟩]⟩ : Deck).cards = [] ∧
    Deck.draw_one ⟨[], [⟨1, 2⟩]⟩ = .error ⟨[], [⟨1, 2⟩]⟩ :=
  ⟨rfl, claim_draw_one_empty ⟨[], [⟨1, 2⟩]⟩ rfl⟩

/-- C6: constructing a Card succeeds exactly on the four defined suits with
an integer rank in [2, 14], in which case `points` is the suit value times
the rank; for a rank outside [2, 14] or a suit outside the four defined
values the construction fails (the modelled `InvalidCard` error). -/
theorem claim_card_construction (s : Nat) (v : Int) :
    (s ∈ Suit.ALL_SUITS ∧ 2 ≤ v ∧ v ≤ 14 →
      Card.make s v = some ⟨s, v.toNat⟩ ∧ (((⟨s, v.toNat⟩ : Card).points : Nat) : Int) = s * v) ∧
    ((v < 2 ∨ 14 < v ∨ s ∉ Suit.ALL_SUITS) → Card.make s v = none) := by
  constructor
  · intro hv
    refine ⟨by simp [Card.make, hv], ?_⟩
    obtain ⟨hs, h2, h14⟩ := hv
    show ((s * v.toNat : Nat) : Int) = s * v
    push_cast
    rw [Int.toNat_of_nonneg (by omega)]
  · intro hv
    have hnot : ¬ (s ∈ Suit.ALL_SUITS ∧ 2 ≤ v ∧ v ≤ 14) := by
      rintro ⟨hs, h2, h14⟩
      rcases hv with h | h | h
      · omega
      · omega
      · exact h hs
    simp [Card.make, hnot]

/-- Witness for C6: the 5 of Spades is built with 5 points, and rank 20 is
rejected. -/
theorem claim_card_construction_witness :
    (Suit.SPADE ∈ Suit.ALL_SUITS ∧ (2 : Int) ≤ 5 ∧ (5 : Int) ≤ 14) ∧
    Card.make Suit.SPADE 5 = some ⟨1, 5⟩ ∧
    (((⟨1, 5⟩ : Card).points : Nat) : Int) = 1 * 5 ∧
    Card.make Suit.SPADE 20 = none := by
  refine ⟨by decide, ?_, ?_, ?_⟩
  · exact ((claim_card_construction Suit.SPADE 5).1 (by decide)).1
  · exact ((claim_card_construction Suit.SPADE 5).1 (by decide)).2
  · exact (claim_card_construction Suit.SPADE 20).2 (Or.inr (Or.inl (by decide)))

/-- C7: `compare_hands` returns Player 1 exactly when their hand value is
strictly greater, Player 2 exactly when theirs is, and no winner (`none`,
not an error) on equal totals; on the spec's concrete hands (25 vs 24
points) it returns Player 1, and on two 25-point hands it returns no
winner. -/
theorem claim_compare_hands (g : GameState) :
    (Game.compare_hands g = some PlayerId.p1 ↔ handValue g.hand1 > handValue g.hand2) ∧
    (Game.compare_hands g = some PlayerId.p2 ↔ handValue g.hand2 > handValue g.hand1) ∧
    (Game.compare_hands g = none ↔ handValue g.hand1 = handValue g.hand2) ∧
    handValue [⟨1, 2⟩, ⟨1, 3⟩, ⟨4, 5⟩] = 25 ∧
    handValue [⟨1, 4⟩, ⟨1, 5⟩, ⟨3, 5⟩] = 24 ∧
    Game.compare_hands ⟨Deck.new, [⟨1, 2⟩, ⟨1, 3⟩, ⟨4, 5⟩], [⟨1, 4⟩, ⟨1, 5⟩, ⟨3, 5⟩]⟩ =
      some PlayerId.p1 ∧
    handValue [⟨1, 4⟩, ⟨1, 6⟩, ⟨3, 5⟩] = 25 ∧
    Game.compare_hands ⟨Deck.new, [⟨1, 4⟩, ⟨1, 6⟩, ⟨3, 5⟩], [⟨1, 2⟩, ⟨1, 3⟩, ⟨4, 5⟩]⟩ =
      none := by
  refine ⟨?_, ?_, ?_, by decide, by decide, by decide, by decide, by decide⟩
  · simp only [Game.compare_hands]
    split_ifs with h1 h2 <;> simp_all
  · simp only [Game.compare_hands]
    split_ifs with h1 h2 <;> simp_all <;> omega
  · simp only [Game.compare_hands]
    split_ifs with h1 h2 <;> simp_all

/-- Witness for C7 at the fresh game (both hands empty, a tie). -/
theorem claim_compare_hands_witness :
    Game.compare_hands Game.new = none ↔
      handValue Game.new.hand1 = handValue Game.new.hand2 :=
  (claim_compare_hands Game.new).2.2.1

/-- What a successful one-card draw by a player does to the shared state
(shared helper): the deck loses its top card, which is appended both to the
discard pile and to that player's hand, and the other hand is untouched. -/
theorem player_draw_ok (p : PlayerId) (g : GameState) (c : Card) (g' : GameState)
    (h : Player.draw_one p g = .ok (c, g')) :
    g.deck.cards = c :: g'.deck.cards ∧
    g'.deck.pile = g.deck.pile ++ [c] ∧
    g'.hand p = g.hand p ++ [c] ∧
    (∀ q, q ≠ p → g'.hand q = g.hand q) := by
  cases hc : g.deck.cards with
  | nil => simp [Player.draw_one, Deck.draw_one, hc] at h
  | cons a rest =>
    simp only [Player.draw_one, Deck.draw_one, hc, Except.ok.injEq, Prod.mk.injEq] at h
    obtain ⟨rfl, rfl⟩ := h
    cases p with
    | p1 =>
      refine ⟨by simp [GameState.setHand, hc], by simp [GameState.setHand],
        by simp [GameState.setHand, GameState.hand], ?_⟩
      intro q hq
      cases q with
      | p1 => exact absurd rfl hq
      | p2 => simp [GameState.setHand, GameState.hand]
    | p2 =>
      refine ⟨by simp [GameState.setHand, hc], by simp [GameState.setHand],
        by simp [GameState.setHand, GameState.hand], ?_⟩
      intro q hq
      cases q with
      | p1 => simp [GameState.setHand, GameState.hand]
      | p2 => exact absurd rfl hq

/-- A failed `Player.draw_one` leaves the whole state unchanged (shared
helper): the deck raised before mutating and the hand was never touched. -/
theorem player_draw_error (p : PlayerId) (g s : GameState)
    (h : Player.draw_one p g = .error s) : s = g := by
  cases hc : g.deck.cards with
  | nil =>
    simp only [Player.draw_one, Deck.draw_one, hc, Except.error.injEq] at h
    cases g with
    | mk dk h1 h2 =>
      simp only at hc
      cases dk with
      | mk cs p' =>
        simp only at hc
        subst hc
        exact h.symm
  | cons a rest => simp [Player.draw_one, Deck.draw_one, hc] at h

/-- A successful `drawRound` grows each hand by exactly one card (shared
helper). -/
theorem drawRound_ok_len (g g' : GameState) (h : Game.drawRound g = .ok g') :
    g'.hand1.length = g.hand1.length + 1 ∧ g'.hand2.length = g.hand2.length + 1 := by
  unfold Game.drawRound at h
  cases h1 : Player.draw_one .p1 g with
  | error s => simp only [h1] at h; exact absurd h (by simp)
  | ok v1 =>
    obtain ⟨c1, g1⟩ := v1
    simp only [h1] at h
    cases h2 : Player.draw_one .p2 g1 with
    | error s => simp only [h2] at h; exact absurd h (by simp)
    | ok v2 =>
      obtain ⟨c2, g2⟩ := v2
      simp only [h2, Except.ok.injEq] at h
      subst h
      obtain ⟨-, -, ha1, hb1⟩ := player_draw_ok .p1 g c1 g1 h1
      obtain ⟨-, -, ha2, hb2⟩ := player_draw_ok .p2 g1 c2 g2 h2
      have e1 : g2.hand1 = g1.hand1 := hb2 .p1 (by simp)
      have e2 : g1.hand2 = g.hand2 := hb1 .p2 (by simp)
      constructor
      · rw [e1]
        have : g1.hand1 = g.hand1 ++ [c1] := ha1
        simp [this]
      · have : g2.hand2 = g1.hand2 ++ [c2] := ha2
        rw [this, e2]
        simp

/-- A successful `drawLoop n` grows each hand by exactly `n` cards (shared
helper). -/
theorem drawLoop_ok_len : ∀ (n : Nat) (g g' : GameState), Game.drawLoop n g = .ok g' →
    g'.hand1.length = g.hand1.length + n ∧ g'.hand2.length = g.hand2.length + n
  | 0, g, g', h => by
    simp only [Game.drawLoop, Except.ok.injEq] at h
    subst h
    exact ⟨rfl, rfl⟩
  | Nat.succ n, g, g', h => by
    simp only [Game.drawLoop] at h
    cases hr : Game.drawRound g with
    | error s => rw [hr] at h; exact absurd h (by simp)
    | ok g1 =>
      rw [hr] at h
      obtain ⟨ih1, ih2⟩ := drawLoop_ok_len n g1 g' h
      obtain ⟨e1, e2⟩ := drawRound_ok_len g g1 hr
      omega

/-- C8 counterexample: on a fresh game, `draw_cards()` succeeds but the
value it hands back to its caller is Python's `None` — not the drawn cards
(player 1's draws at this input are Spades 2, 4, 6, which end up in the
hand, not in the return value) and not a pair of point totals. -/
theorem claim_returns_counterexample :
    (Game.draw_cards Game.new).toOption.map Prod.fst = some PyRet.pynone ∧
    (Game.draw_cards Game.new).toOption.map (fun p => p.2.hand1) =
      some [⟨1, 2⟩, ⟨1, 4⟩, ⟨1, 6⟩] ∧
    PyRet.pynone ≠ PyRet.cards [⟨1, 2⟩, ⟨1, 4⟩, ⟨1, 6⟩] ∧
    PyRet.pynone ≠ PyRet.pair 25 24 := by decide

/-- C8 (amended): `draw_cards()` returns Python `None` (the six drawn cards
are delivered through the players' hands, three each); `compare_hands()`
returns the winner's identity or `none` (the point totals are computed but
not returned); `play()` returns the winner's identity or `none`, namely the
comparison of the final hands. -/
theorem claim_returns_amended :
    (∀ g res, Game.draw_cards g = .ok res → res.1 = PyRet.pynone ∧
      res.2.hand1.length = g.hand1.length + 3 ∧
      res.2.hand2.length = g.hand2.length + 3) ∧
    (∀ g, (Game.compare_hands g).isSome = (handValue g.hand1 != handValue g.hand2)) ∧
    (∀ r g res, Game.play r g = .ok res → res.1 = Game.compare_hands res.2) := by
  refine ⟨?_, ?_, ?_⟩
  · intro g res h
    unfold Game.draw_cards at h
    cases hl : Game.drawLoop 3 g with
    | error s => rw [hl] at h; exact absurd h (by simp)
    | ok g1 =>
      rw [hl] at h
      simp only [Except.ok.injEq] at h
      subst h
      obtain ⟨e1, e2⟩ := drawLoop_ok_len 3 g g1 hl
      exact ⟨rfl, e1, e2⟩
  · intro g
    simp only [Game.compare_hands]
    split_ifs with h1 hgt
    · simp [h1]
    · simp [h1]
    · have h2 : handValue g.hand1 = handValue g.hand2 := not_ne_iff.mp h1
      simp [h2]
  · intro r g res h
    unfold Game.play at h
    cases hs : Deck.shuffle r (Player.reset .p2 (Player.reset .p1 g)).deck with
    | error dk => simp only [hs] at h; exact absurd h (by simp)
    | ok dk =>
      simp only [hs] at h
      cases hd : Game.draw_cards
          ⟨dk, (Player.reset .p2 (Player.reset .p1 g)).hand1,
            (Player.reset .p2 (Player.reset .p1 g)).hand2⟩ with
      | error s => simp only [hd] at h; exact absurd h (by simp)
      | ok res2 =>
        obtain ⟨ret2, g2⟩ := res2
        simp only [hd, Except.ok.injEq] at h
        subst h
        rfl

/-- Witness for C8 (amended): `compare_hands` on the fresh game returns as
many winners as the totals differ. -/
theorem claim_returns_amended_witness :
    (Game.compare_hands Game.new).isSome =
      (handValue Game.new.hand1 != handValue Game.new.hand2) :=
  claim_returns_amended.2.1 Game.new

/-- Repeatedly let player 1 draw (state-builder used to reach a concrete
nearly-exhausted deck; a failed draw keeps the state). -/
def iterDraw : Nat → GameState → GameState
  | 0, g => g
  | Nat.succ n, g =>
    match Player.draw_one .p1 g with
    | .error _ => g
    | .ok (_, g1) => iterDraw n g1

/-- The final state of a `draw_cards` call: the state carried by the
exception on failure, the resulting state on success. -/
def exceptState (e : Except GameState (PyRet × GameState)) : GameState :=
  match e with
  | .error s => s
  | .ok p => p.2

/-- C9 counterexample: after 51 draws the deck holds one card; on that
state `Game.draw_cards` fails (player 2's first draw raises), but the state
at the failure is not the state before the call — player 1's extra draw has
already moved the last card into their hand and the discard pile.  The
mutating operation neither fully completed nor left state unchanged. -/
theorem claim_atomicity_counterexample :
    (Game.draw_cards (iterDraw 51 Game.new)).toOption = none ∧
    exceptState (Game.draw_cards (iterDraw 51 Game.new)) ≠ iterDraw 51 Game.new := by
  decide

/-- C9 (amended): `Deck.draw_one` and `Player.draw_one` fail only before
mutating anything, so their error state is exactly the pre-call state, and
`Deck.shuffle` on a full 52-card deck with in-range random picks always
completes; but `Game.draw_cards` (and hence `Game.play`) is not atomic: when
a mid-sequence draw fails, the draws already made stay in place. -/
theorem claim_atomicity_amended :
    (∀ d s, Deck.draw_one d = .error s → s = d) ∧
    (∀ p g s, Player.draw_one p g = .error s → s = g) ∧
    (∀ r d, (∀ i, r i ≤ i) → d.cards.length + d.pile.length = 52 →
      ∃ d', Deck.shuffle r d = .ok d') ∧
    (∀ g s, Game.drawRound g = .error s →
      s = g ∨ ∃ c g1, Player.draw_one .p1 g = .ok (c, g1) ∧ s = g1) := by
  refine ⟨?_, ?_, ?_, ?_⟩
  · intro d s h
    cases hc : d.cards with
    | nil =>
      simp only [Deck.draw_one, hc, Except.error.injEq] at h
      exact h.symm
    | cons a rest => simp [Deck.draw_one, hc] at h
  · intro p g s h
    exact player_draw_error p g s h
  · intro r d hr hl
    obtain ⟨d', hok, -, -⟩ := shuffle_ok r hr d hl
    exact ⟨d', hok⟩
  · intro g s h
    unfold Game.drawRound at h
    cases h1 : Player.draw_one .p1 g with
    | error s1 =>
      simp only [h1, Except.error.injEq] at h
      subst h
      exact Or.inl (player_draw_error .p1 g s1 h1)
    | ok v1 =>
      obtain ⟨c1, g1⟩ := v1
      simp only [h1] at h
      cases h2 : Player.draw_one .p2 g1 with
      | error s2 =>
        simp only [h2, Except.error.injEq] at h
        subst h
        exact Or.inr ⟨c1, g1, rfl, player_draw_error .p2 g1 s2 h2⟩
      | ok v2 =>
        obtain ⟨c2, g2⟩ := v2
        simp only [h2] at h
        exact absurd h (by simp)

/-- Witness for C9 (amended): shuffling a fresh deck with the all-zero
in-range choices completes. -/
theorem claim_atomicity_amended_witness :
    (∀ i, rzero i ≤ i) ∧ Deck.new.cards.length + Deck.new.pile.length = 52 ∧
    (∃ d', Deck.shuffle rzero Deck.new = .ok d') :=
  ⟨fun i => Nat.zero_le i, by decide,
    claim_atomicity_amended.2.2.1 rzero Deck.new (fun i => Nat.zero_le i) (by decide)⟩

/-- C10: every card a player draws is appended simultaneously to the deck's
discard pile and to that player's hand (so a hand built only by drawing
stays a subsequence of the discard pile), and `Player.reset` changes only
that player's hand — the deck's two piles and the other player's hand are
untouched, so no card ever leaves the 52-card universe the Deck tracks. -/
theorem claim_hand_discard_frame :
    (∀ p g c g', Player.draw_one p g = .ok (c, g') →
      g'.hand p = g.hand p ++ [c] ∧
      g'.deck.pile = g.deck.pile ++ [c] ∧
      (∀ q, q ≠ p → g'.hand q = g.hand q) ∧
      ((g.hand p).Sublist g.deck.pile → (g'.hand p).Sublist g'.deck.pile)) ∧
    (∀ p g,
      (Player.reset p g).hand p = [] ∧
      (Player.reset p g).deck = g.deck ∧
      (∀ q, q ≠ p → (Player.reset p g).hand q = g.hand q)) := by
  constructor
  · intro p g c g' h
    obtain ⟨-, hpile, hhand, hother⟩ := player_draw_ok p g c g' h
    refine ⟨hhand, hpile, hother, ?_⟩
    intro hsub
    rw [hhand, hpile]
    exact hsub.append (List.Sublist.refl [c])
  · intro p g
    cases p with
    | p1 =>
      refine ⟨rfl, rfl, ?_⟩
      intro q hq
      cases q with
      | p1 => exact absurd rfl hq
      | p2 => rfl
    | p2 =>
      refine ⟨rfl, rfl, ?_⟩
      intro q hq
      cases q with
      | p1 => rfl
      | p2 => exact absurd rfl hq

/-- Witness for C10: resetting player 1 in the fresh game clears their hand,
keeps the deck, and leaves player 2's hand alone. -/
theorem claim_hand_discard_frame_witness :
    (Player.reset PlayerId.p1 Game.new).hand PlayerId.p1 = [] ∧
    (Player.reset PlayerId.p1 Game.new).deck = Game.new.deck ∧
    (Player.reset PlayerId.p1 Game.new).hand PlayerId.p2 = Game.new.hand PlayerId.p2 :=
  ⟨(claim_hand_discard_frame.2 PlayerId.p1 Game.new).1,
    (claim_hand_discard_frame.2 PlayerId.p1 Game.new).2.1,
    (claim_hand_discard_frame.2 PlayerId.p1 Game.new).2.2 PlayerId.p2 (by decide)⟩
